import Mathlib

/-!
Verification development for the recipe-recommendation core
(`FastAPI_Backend/model.py` of the diet-recommendation-system repository).

The embedding models the catalog as a list of records with the fifteen
columns of the dataset (`Name`, three duration strings, two serialized
text columns, and the nine nutrition columns occupied by
`dataframe.iloc[:, 6:15]`).  Nutrition values are exact rationals; the
standardizer and the cosine distance, which involve square roots, are
additionally given over the reals, connected to the rational layer by
bridge lemmas.  Model boundaries, where the source delegates to a
library whose full behavior is not reproduced, are noted on the
individual definitions.
-/

namespace DietRec

/-- Row of the catalog dataframe: the fifteen columns of the dataset in
order (`create_test_dataset.py`), with the nine nutrition columns
(`iloc[:, 6:15]` in `scaling`) collected into one vector. -/
structure RecipeRecord where
  Name : String
  CookTime : String
  PrepTime : String
  TotalTime : String
  RecipeIngredientParts : String
  RecipeInstructions : String
  nutrition : Fin 9 → ℚ
deriving DecidableEq

/-- Default row used to give total meaning to positional lookup; the
success path only ever indexes in bounds. -/
def dfltRecipe : RecipeRecord :=
  { Name := "", CookTime := "", PrepTime := "", TotalTime := "",
    RecipeIngredientParts := "", RecipeInstructions := "",
    nutrition := fun _ => 0 }

/-- Case-insensitive containment of `t` in `txt`, the meaning of one
lookahead factor `(?=.*t)` of the pattern built in
`extract_ingredient_filtered_data` exactly when `t` satisfies
`plainTerm` and `txt` satisfies `plainText` (defined below): for such
terms the factor is a literal substring test and `re.IGNORECASE`
agrees with ASCII lowercasing.  For terms with live regex
metacharacters (e.g. alternation `a|b`) or texts with newlines the
code's `re.search` semantics differ from this containment, so the
selective behavior of the filter is only asserted under those
hypotheses (claim C3); every other claim is independent of which rows
match. -/
def termMatches (txt t : String) : Bool :=
  decide ((t.data.map Char.toLower) <:+: (txt.data.map Char.toLower))

/-- Conjunction of the per-term containment checks, the meaning of the
composed multi-lookahead pattern under `re.IGNORECASE`. -/
def rowMatchesAll (r : RecipeRecord) (ts : List String) : Bool :=
  ts.all (fun t => termMatches r.RecipeIngredientParts t)

/-- Pattern string `''.join(map(lambda x: f'(?=.*x)', ingredients))`
built by `extract_ingredient_filtered_data`. -/
def regexString (ts : List String) : String :=
  String.join (ts.map (fun t => "(?=.*" ++ t ++ ")"))

/-- Parenthesis-balance scan over a pattern string. -/
def parenScan : ℕ → List Char → Bool
  | bal, [] => bal == 0
  | bal, c :: cs =>
    if c = '(' then parenScan (bal + 1) cs
    else if c = ')' then
      match bal with
      | 0 => false
      | b + 1 => parenScan b cs
    else parenScan bal cs

/-- Compilability of the composed pattern by Python's `re` module,
modelled by parenthesis balance.  This is a sound under-approximation
of invalidity: every pattern with `patternValid = false` (for example
`(?=.*))` built from the term `)`) is genuinely rejected by `re`, and
only that region carries a claim (the fail-open behavior, C7).  The
`true` region over-approximates real compilability (an unterminated
class such as `(?=.*[)` is classed valid); no claim relies on it — the
filter-selectivity claim C3 instead assumes metacharacter-free terms,
for which genuine validity is proved from the term shape
(`patternValid_of_plain`). -/
def patternValid (s : String) : Bool := parenScan 0 s.data

/-- Filter of `extract_ingredient_filtered_data`: an empty term list
returns the (copied) input; a compilable pattern keeps the rows matching
every term; a pattern rejected by `re` falls back to the unfiltered
copy (the inner `except` branch).  `DataFrame.copy` and boolean-mask
row selection preserve row values and order, so the copy is the
identity on the value level here; the object-level copying is modelled
separately by the heap embedding below. -/
def extract_ingredient_filtered_data (rows : List RecipeRecord) (ts : List String) :
    List RecipeRecord :=
  if ts.isEmpty then rows
  else if patternValid (regexString ts) then rows.filter (fun r => rowMatchesAll r ts)
  else rows

/-- Wrapper `extract_data`: copies the dataframe and applies the
ingredient filter. -/
def extract_data (rows : List RecipeRecord) (ts : List String) : List RecipeRecord :=
  extract_ingredient_filtered_data rows ts

/-- Arithmetic mean of nutrition column `j` over the filtered subset,
as computed by `StandardScaler.fit` inside `scaling`. -/
def colMean (sub : List RecipeRecord) (j : Fin 9) : ℚ :=
  (sub.map (fun r => r.nutrition j)).sum / (sub.length : ℚ)

/-- Population variance of nutrition column `j` over the filtered
subset (`StandardScaler` uses the biased estimator). -/
def colVar (sub : List RecipeRecord) (j : Fin 9) : ℚ :=
  (sub.map (fun r => (r.nutrition j - colMean sub j) ^ 2)).sum / (sub.length : ℚ)

/-- Square of the divisor used by `StandardScaler.transform` after
`_handle_zeros_in_scale`: a zero standard deviation is replaced by `1`,
otherwise the divisor is `sqrt(var)` whose square is the variance. -/
def scaleSq (sub : List RecipeRecord) (j : Fin 9) : ℚ :=
  if colVar sub j = 0 then 1 else colVar sub j

/-- Divisor used by `StandardScaler.transform` (`scale_`): the standard
deviation of column `j`, with zeros replaced by `1`. -/
noncomputable def scaleR (sub : List RecipeRecord) (j : Fin 9) : ℝ :=
  if colVar sub j = 0 then 1 else Real.sqrt ((colVar sub j : ℚ) : ℝ)

/-- Standardization of a raw nutrition vector with the statistics
fitted on `sub`: componentwise `(value - mean) / scale_`.  Applied by
the pipeline both to every row of the subset (`fit_transform`) and to
the query vector (`transform` inside `Pipeline.transform`). -/
noncomputable def stdVec (sub : List RecipeRecord) (x : Fin 9 → ℚ) (j : Fin 9) : ℝ :=
  (((x j : ℚ) : ℝ) - ((colMean sub j : ℚ) : ℝ)) / scaleR sub j

/-- Dot product of two real 9-vectors. -/
def dotR (a b : Fin 9 → ℝ) : ℝ := ∑ j, a j * b j

/-- Cosine distance as computed by sklearn's brute-force cosine metric:
`1 - a·b / (‖a‖‖b‖)`, with a zero-magnitude vector normalized to zero
(sklearn's `normalize` replaces a zero norm by `1`), giving distance
`1`. -/
noncomputable def cosDistR (a b : Fin 9 → ℝ) : ℝ :=
  if dotR a a = 0 ∨ dotR b b = 0 then 1
  else 1 - dotR a b / (Real.sqrt (dotR a a) * Real.sqrt (dotR b b))

/-- Rational dot product of the standardized images of two raw vectors:
`∑ (x - mean)(y - mean) / scale²`.  Equal to
`dotR (stdVec sub x) (stdVec sub y)` (lemma `sdot_eq_dotR`); kept in
`ℚ` so the neighbor search is executable. -/
def sdot (sub : List RecipeRecord) (x y : Fin 9 → ℚ) : ℚ :=
  ∑ j, (x j - colMean sub j) * (y j - colMean sub j) / scaleSq sub j

/-- Similarity key of a standardized row against the standardized
query: the pair (dot with query, squared magnitude), with a
zero-magnitude row normalized to `(0, 1)` as sklearn's `normalize`
does.  The cosine distance of the row is `1 - key.1 / (√key.2·‖q‖)`. -/
def simKey (sub : List RecipeRecord) (q x : Fin 9 → ℚ) : ℚ × ℚ :=
  if sdot sub x x = 0 then (0, 1) else (sdot sub x q, sdot sub x x)

/-- Exact comparison `a / √A ≥ b / √B` for positive `A`, `B`, decided
in `ℚ` by sign analysis and squaring. -/
def ratioGE (a A b B : ℚ) : Bool :=
  if 0 ≤ a then
    (if 0 ≤ b then decide (b ^ 2 * A ≤ a ^ 2 * B) else true)
  else
    (if 0 ≤ b then false else decide (a ^ 2 * B ≤ b ^ 2 * A))

/-- Comparison "cosine distance of the row with key `p` is at most that
of the row with key `p'`", given the squared magnitude `Q` of the
standardized query.  When `Q = 0` every distance is `1`. -/
def distLEb (Q : ℚ) (p p' : ℚ × ℚ) : Bool :=
  (Q == 0) || ratioGE p.1 p.2 p'.1 p'.2

/-- Similarity key of the subset row at position `i`. -/
def keyAt (sub : List RecipeRecord) (q : Fin 9 → ℚ) (i : ℕ) : ℚ × ℚ :=
  simKey sub q (sub.getD i dfltRecipe).nutrition

/-- Distance order on row positions of the filtered subset. -/
def distRelIdx (sub : List RecipeRecord) (q : Fin 9 → ℚ) (i j : ℕ) : Prop :=
  distLEb (sdot sub q q) (keyAt sub q i) (keyAt sub q j) = true

instance distRelIdxDec (sub : List RecipeRecord) (q : Fin 9 → ℚ) :
    DecidableRel (distRelIdx sub q) :=
  fun _ _ => inferInstanceAs (Decidable (_ = true))

/-- Row positions of the subset arranged by non-decreasing cosine
distance to the query.  The brute-force searcher computes every
distance and sorts; the model uses a stable sort, which realizes the
documented contract "indices of neighbors, ascending by distance" (the
order among exact ties is an implementation detail of the library and
is not claimed by the model). -/
def kRank (sub : List RecipeRecord) (q : Fin 9 → ℚ) : List ℕ :=
  List.insertionSort (distRelIdx sub q) (List.range sub.length)

/-- Index rows returned by `NearestNeighbors.kneighbors` for `k`
neighbors: the `k` closest row positions, ascending by distance. -/
def kneighborsIdx (sub : List RecipeRecord) (q : Fin 9 → ℚ) (k : ℕ) : List ℕ :=
  (kRank sub q).take k

/-- Return value of `neigh.kneighbors(X, n_neighbors=k,
return_distance=rd)` as produced inside the pipeline's
`FunctionTransformer`: either the 2-D index array alone, or the pair
(2-D distance array, 2-D index array).  A distance is carried as its
exact rational similarity key; the numeric values of the distance row
are never consumed, because positional indexing rejects it by type. -/
inductive KNeighborsRet where
  | indicesOnly (ind : List (List ℕ)) : KNeighborsRet
  | withDist (dist : List (List (ℚ × ℚ))) (ind : List (List ℕ)) : KNeighborsRet

/-- Output of the fitted search structure of `nn_predictor` composed
with the scaler, i.e. of `pipeline.transform(_input)` in
`apply_pipeline`, for a single query row. -/
def kneighbors (sub : List RecipeRecord) (q : Fin 9 → ℚ) (k : ℕ) (rd : Bool) :
    KNeighborsRet :=
  if rd then
    KNeighborsRet.withDist [(kneighborsIdx sub q k).map (keyAt sub q)] [kneighborsIdx sub q k]
  else KNeighborsRet.indicesOnly [kneighborsIdx sub q k]

/-- Value of `pipeline.transform(_input)[0]`: row `0` of the index
array when `return_distance` is false, and the first tuple component —
the whole 2-D float distance array — when it is true. -/
inductive Row0 where
  | ints (l : List ℕ) : Row0
  | floats (m : List (List (ℚ × ℚ))) : Row0

/-- Projection `[0]` applied to the `kneighbors` return value. -/
def getitem0 : KNeighborsRet → Row0
  | KNeighborsRet.indicesOnly ind => Row0.ints (ind.headD [])
  | KNeighborsRet.withDist dist _ => Row0.floats dist

/-- Message of the pandas error raised by positional indexing with a
float array. -/
def ilocTypeMsg : String := "arrays used as indices must be of integer type"

/-- Message of the pandas error raised by an out-of-bounds positional
index. -/
def ilocBoundsMsg : String := "positional indexers are out-of-bounds"

/-- Message of the sklearn error raised by fitting on an empty
subset. -/
def scalingEmptyMsg : String := "scaling failed: found array with 0 samples"

/-- Message of the sklearn error raised by `n_neighbors == 0`. -/
def kneighborsZeroMsg : String := "kneighbors failed: n_neighbors must be a positive integer"

/-- Positional row selection `extracted_data.iloc[x]`: accepts an
integer index list within bounds, and raises on a float array. -/
def iloc (df : List RecipeRecord) : Row0 → Except String (List RecipeRecord)
  | Row0.ints l =>
    if l.all (fun i => i < df.length) then
      Except.ok (l.map (fun i => df.getD i dfltRecipe))
    else Except.error ilocBoundsMsg
  | Row0.floats _ => Except.error ilocTypeMsg

/-- Body of `apply_pipeline`:
`extracted_data.iloc[pipeline.transform(_input)[0]]`. -/
def apply_pipeline (sub : List RecipeRecord) (q : Fin 9 → ℚ) (k : ℕ) (rd : Bool) :
    Except String (List RecipeRecord) :=
  iloc sub (getitem0 (kneighbors sub q k rd))

/-- Outcome of `recommend`: a result dataframe, `None`, or a raised
exception with its message. -/
inductive RecOutcome where
  | result (rows : List RecipeRecord) : RecOutcome
  | noResult : RecOutcome
  | error (msg : String) : RecOutcome
deriving DecidableEq

/-- Body of `recommend(dataframe, _input, ingredients, params)` with
`params = (n_neighbors := k, return_distance := rd)` passed explicitly.
The two inner error guards model sklearn input validation on the
success branch: `StandardScaler.fit_transform` rejects an empty array
(reachable only when `k = 0`), and `kneighbors` rejects
`n_neighbors = 0`. -/
def recommend (df : List RecipeRecord) (q : Fin 9 → ℚ) (ing : List String) (k : ℕ)
    (rd : Bool) : RecOutcome :=
  if k ≤ (extract_data df ing).length then
    if (extract_data df ing).length = 0 then RecOutcome.error scalingEmptyMsg
    else if k = 0 then RecOutcome.error kneighborsZeroMsg
    else
      match apply_pipeline (extract_data df ing) q k rd with
      | Except.ok rows => RecOutcome.result rows
      | Except.error e => RecOutcome.error e
  else RecOutcome.noResult

/-- Scan of `re.findall(r'"([^"]*)"', s)`: outside a quoted region the
scanner skips to the next double quote; inside, it accumulates
characters until the closing quote and emits the content; an unclosed
final region is dropped. -/
def extractQAux : Bool → List Char → List Char → List (List Char)
  | _, _, [] => []
  | false, acc, c :: cs =>
    if c = '"' then extractQAux true [] cs else extractQAux false acc cs
  | true, acc, c :: cs =>
    if c = '"' then acc :: extractQAux false [] cs else extractQAux true (acc ++ [c]) cs

/-- Body of `extract_quoted_strings`: every double-quote delimited
substring of `s`, in order of appearance.  The `except` branch of the
source is unreachable here because the scan is total. -/
def extract_quoted_strings (s : String) : List String :=
  (extractQAux false [] s.data).map (fun cs => String.mk cs)

/-- Split of a character list at every double quote (the separators are
consumed; `n` quotes yield `n + 1` segments). -/
def splitQ : List Char → List (List Char)
  | [] => [[]]
  | c :: cs =>
    if c = '"' then [] :: splitQ cs
    else
      match splitQ cs with
      | [] => [[c]]
      | p :: ps => (c :: p) :: ps

/-- Elements at the odd positions of a list. -/
def oddSlots {α : Type} : List α → List α
  | [] => []
  | [_] => []
  | _ :: p :: rest => p :: oddSlots rest

/-- Specification-side reading of the extraction, following the spec's
words: split the text at its double quotes and keep exactly the
segments lying between the first and second, third and fourth, …
quotes — the maximal substrings delimited by a pair of double quotes,
in order of appearance. -/
def quotedSpec (s : String) : List String :=
  (oddSlots (splitQ s.data).dropLast).map (fun cs => String.mk cs)

/-- Display-ready record produced by `output_recommended_recipes`: the
two serialized text columns replaced by their extracted string
lists. -/
structure FormattedRecipe where
  Name : String
  CookTime : String
  PrepTime : String
  TotalTime : String
  RecipeIngredientParts : List String
  RecipeInstructions : List String
  nutrition : Fin 9 → ℚ
deriving DecidableEq

/-- Per-record body of the formatting loop in
`output_recommended_recipes`. -/
def formatRecipe (r : RecipeRecord) : FormattedRecipe :=
  { Name := r.Name, CookTime := r.CookTime, PrepTime := r.PrepTime,
    TotalTime := r.TotalTime,
    RecipeIngredientParts := extract_quoted_strings r.RecipeIngredientParts,
    RecipeInstructions := extract_quoted_strings r.RecipeInstructions,
    nutrition := r.nutrition }

/-- Body of `output_recommended_recipes(dataframe)`: `None` propagates
unchanged; otherwise the copied rows are converted to records and each
record's two text fields are replaced by extracted lists. -/
def output_recommended_recipes : Option (List RecipeRecord) → Option (List FormattedRecipe)
  | none => none
  | some rows => some (rows.map formatRecipe)

/-- Heap of dataframe objects.  The catalog is shared state; every
pandas operation of the pipeline either reads a frame or allocates a
fresh one (`copy`, boolean-mask selection, `iloc`), never writes into
an existing frame, and the heap embedding makes that explicit:
addresses are list positions and allocation appends. -/
abbrev Heap : Type := List (List RecipeRecord)

/-- Read the frame at address `a`. -/
def readH (h : Heap) (a : ℕ) : List RecipeRecord := h.getD a []

/-- Allocate a fresh frame holding `v`; returns the grown heap and the
new address. -/
def alloc (h : Heap) (v : List RecipeRecord) : Heap × ℕ := (h ++ [v], h.length)

/-- Heap-level `extract_ingredient_filtered_data`: the body first runs
`dataframe.copy()` (an allocation), then either returns the copy or
allocates the mask-selected frame. -/
def extract_ingredient_filtered_dataH (h : Heap) (dfA : ℕ) (ts : List String) :
    Heap × ℕ :=
  match alloc h (readH h dfA) with
  | (h1, c) =>
    if ts.isEmpty then (h1, c)
    else if patternValid (regexString ts) then
      alloc h1 ((readH h1 c).filter (fun r => rowMatchesAll r ts))
    else (h1, c)

/-- Heap-level `extract_data`: one more `dataframe.copy()` before the
filter. -/
def extract_dataH (h : Heap) (dfA : ℕ) (ts : List String) : Heap × ℕ :=
  match alloc h (readH h dfA) with
  | (h1, c) => extract_ingredient_filtered_dataH h1 c ts

/-- Heap-level `apply_pipeline`: `iloc` materializes a new frame on
success and raises without allocating otherwise. -/
def apply_pipelineH (h : Heap) (eA : ℕ) (q : Fin 9 → ℚ) (k : ℕ) (rd : Bool) :
    Heap × Except String ℕ :=
  match iloc (readH h eA) (getitem0 (kneighbors (readH h eA) q k rd)) with
  | Except.ok rows =>
    match alloc h rows with
    | (h1, a) => (h1, Except.ok a)
  | Except.error e => (h, Except.error e)

/-- Return value of the heap-level `recommend`: a frame reference,
`None`, or a raised exception. -/
inductive RecRef where
  | frame (a : ℕ) : RecRef
  | noneRef : RecRef
  | raised (msg : String) : RecRef

/-- Heap-level `recommend`, threading the shared heap through every
dataframe operation of the request. -/
def recommendH (h : Heap) (dfA : ℕ) (q : Fin 9 → ℚ) (ing : List String) (k : ℕ)
    (rd : Bool) : Heap × RecRef :=
  match extract_dataH h dfA ing with
  | (h1, e) =>
    if k ≤ (readH h1 e).length then
      if (readH h1 e).length = 0 then (h1, RecRef.raised scalingEmptyMsg)
      else if k = 0 then (h1, RecRef.raised kneighborsZeroMsg)
      else
        match apply_pipelineH h1 e q k rd with
        | (h2, Except.ok a) => (h2, RecRef.frame a)
        | (h2, Except.error m) => (h2, RecRef.raised m)
    else (h1, RecRef.noneRef)

/-- Heap-level `output_recommended_recipes`: `None` propagates; a frame
is copied (`output = dataframe.copy()`) and the per-record mutations of
the loop land on the record dictionaries built from the copy, never on
a frame. -/
def output_recommended_recipesH (h : Heap) (r : Option ℕ) :
    Heap × Option (List FormattedRecipe) :=
  match r with
  | none => (h, none)
  | some a =>
    match alloc h (readH h a) with
    | (h1, c) => (h1, some ((readH h1 c).map formatRecipe))

/-- One full request against the shared heap: `recommend` followed by
the formatting of its result, as `main.py` chains them. -/
def full_requestH (h : Heap) (dfA : ℕ) (q : Fin 9 → ℚ) (ing : List String) (k : ℕ)
    (rd : Bool) : Heap × Option (List FormattedRecipe) :=
  match recommendH h dfA q ing k rd with
  | (h1, RecRef.frame a) => output_recommended_recipesH h1 (some a)
  | (h1, _) => (h1, none)

/-- Value-level reading of a heap-level outcome, used to relate the two
embeddings of `recommend`. -/
def resolveRef (h : Heap) : RecRef → RecOutcome
  | RecRef.frame a => RecOutcome.result (readH h a)
  | RecRef.noneRef => RecOutcome.noResult
  | RecRef.raised m => RecOutcome.error m

/-- Sample fixture row 1 of `create_test_dataset.py`. -/
def chickenSalad : RecipeRecord :=
  { Name := "Chicken Salad", CookTime := "15 min", PrepTime := "10 min",
    TotalTime := "25 min",
    RecipeIngredientParts := "[\"chicken breast\", \"lettuce\", \"tomatoes\", \"olive oil\"]",
    RecipeInstructions := "[\"Cook chicken\", \"Chop vegetables\", \"Mix ingredients\"]",
    nutrition := ![350, 12, 2, 85, 450, 8, 3, 4, 45] }

/-- Sample fixture row 2 of `create_test_dataset.py`. -/
def vegetarianPasta : RecipeRecord :=
  { Name := "Vegetarian Pasta", CookTime := "20 min", PrepTime := "15 min",
    TotalTime := "35 min",
    RecipeIngredientParts := "[\"pasta\", \"tomatoes\", \"basil\", \"olive oil\"]",
    RecipeInstructions := "[\"Boil pasta\", \"Prepare sauce\", \"Combine ingredients\"]",
    nutrition := ![420, 8, 1, 0, 380, 75, 6, 8, 12] }

/-- Sample fixture row 3 of `create_test_dataset.py`. -/
def salmonWithRice : RecipeRecord :=
  { Name := "Salmon with Rice", CookTime := "25 min", PrepTime := "10 min",
    TotalTime := "35 min",
    RecipeIngredientParts := "[\"salmon\", \"rice\", \"vegetables\", \"lemon\"]",
    RecipeInstructions := "[\"Cook salmon\", \"Prepare rice\", \"Add vegetables\"]",
    nutrition := ![480, 18, 3, 95, 520, 45, 4, 2, 38] }

/-- Sample fixture row 4 of `create_test_dataset.py`. -/
def greekSalad : RecipeRecord :=
  { Name := "Greek Salad", CookTime := "0 min", PrepTime := "15 min",
    TotalTime := "15 min",
    RecipeIngredientParts := "[\"cucumber\", \"tomatoes\", \"olives\", \"feta cheese\"]",
    RecipeInstructions := "[\"Chop vegetables\", \"Mix ingredients\", \"Add dressing\"]",
    nutrition := ![180, 14, 6, 25, 680, 8, 3, 5, 6] }

/-- Sample fixture row 5 of `create_test_dataset.py`. -/
def beefStirFry : RecipeRecord :=
  { Name := "Beef Stir Fry", CookTime := "15 min", PrepTime := "20 min",
    TotalTime := "35 min",
    RecipeIngredientParts := "[\"beef\", \"vegetables\", \"soy sauce\", \"ginger\"]",
    RecipeInstructions := "[\"Slice beef\", \"Stir fry vegetables\", \"Add sauce\"]",
    nutrition := ![380, 16, 5, 75, 720, 22, 5, 6, 32] }

/-- Five-recipe sample catalog of `create_test_dataset.py`. -/
def testCatalog : List RecipeRecord :=
  [chickenSalad, vegetarianPasta, salmonWithRice, greekSalad, beefStirFry]

/-- Query target of the spec's sample scenario. -/
def targetVec : Fin 9 → ℚ := ![500, 20, 5, 50, 300, 60, 8, 15, 25]

/-- Target differing from `chickenSalad` only in its first (Calories)
component; exercises the zero-variance column of a one-row subset. -/
def tweakVec : Fin 9 → ℚ := ![351, 12, 2, 85, 450, 8, 3, 4, 45]

/-- Synthetic row whose ingredient text contains no parenthesis. -/
def tinyRow : RecipeRecord :=
  { Name := "tiny", CookTime := "", PrepTime := "", TotalTime := "",
    RecipeIngredientParts := "abc", RecipeInstructions := "",
    nutrition := fun _ => 0 }

/-- Term list whose composed pattern is rejected by `re`: the single
term `)` yields the unbalanced pattern `(?=.*))`. -/
def badTerms : List String := [")"]

/-- Well-formed serialized ingredient list of the round-trip
example. -/
def sampleSerialized : String := "[\"chicken breast\", \"lettuce\"]"

/-- Malformed serialized value of the round-trip example. -/
def sampleMalformed : String := "no quotes here"

/-- Ingredient term of the spec's narrow-filter scenario. -/
def chickenStr : String := "chicken"

/-- Characters carrying special meaning in a Python regular expression
(anchors, quantifiers, grouping, classes, alternation, escape). -/
def regexMeta (c : Char) : Bool :=
  c = '.' || c = '^' || c = '$' || c = '*' || c = '+' || c = '?' || c = '(' || c = ')' ||
    c = '[' || c = ']' || c = '\x7b' || c = '\x7d' || c = '|' || c = '\\'

/-- Term over which the lookahead factor `(?=.*t)` is a literal match:
every character is ASCII (so `re.IGNORECASE` folding agrees with ASCII
lowercasing), carries no regex meaning (so the factor is not a
pattern-level alternation, class or quantifier), and is not a newline
(which `.*` cannot cross).  On such terms the factor matches exactly
the texts containing the term case-insensitively. -/
def plainTerm (t : String) : Bool :=
  t.data.all (fun c => decide (c.toNat < 128) && !regexMeta c && decide (c ≠ '\n'))

/-- Row text over which the composed pattern searches the whole
string: ASCII (so `re.IGNORECASE` folding agrees with ASCII
lowercasing) and free of newlines (which `.*` cannot cross, so a
search position sees the entire remaining text). -/
def plainText (s : String) : Bool :=
  s.data.all (fun c => decide (c.toNat < 128) && decide (c ≠ '\n'))

/-- Reading of the scan state inside a quoted region: `acc` holds the
characters consumed since the opening quote, and the segments of the
remaining text determine the rest of the output.  Used only to state
the invariant of the scan/split equivalence. -/
def qInner (acc : List Char) : List (List Char) → List (List Char)
  | [] => []
  | [_] => []
  | p :: q :: ps => (acc ++ p) :: oddSlots ((q :: ps).dropLast)

end DietRec

namespace DietRec

/-! Helper lemmas for the quoted-string scan. -/

/-- Elements at odd positions do not depend on the head element. -/
theorem oddSlots_cons_eq {α : Type} (a b : α) (l : List α) :
    oddSlots (a :: l) = oddSlots (b :: l) := by
  cases l <;> rfl

/-- Splitting always yields at least one segment. -/
theorem splitQ_ne_nil (cs : List Char) : splitQ cs ≠ [] := by
  cases cs with
  | nil => simp [splitQ]
  | cons c cs =>
    by_cases hc : c = '"'
    · simp [splitQ, hc]
    · simp only [splitQ, hc, if_false]
      cases splitQ cs <;> simp

/-- Invariant of the findall scan against the split-and-project
reading: in quoted mode the accumulated prefix joins the next segment,
and outside quotes the output is the odd-position segments short of the
last one. -/
theorem extractQAux_splitQ (cs : List Char) :
    (∀ acc, extractQAux true acc cs = qInner acc (splitQ cs)) ∧
    extractQAux false [] cs = oddSlots (splitQ cs).dropLast := by
  induction cs with
  | nil => exact ⟨fun _ => rfl, rfl⟩
  | cons c cs ih =>
    obtain ⟨p, ps, hsplit⟩ : ∃ p ps, splitQ cs = p :: ps := by
      rcases hq : splitQ cs with _ | ⟨p, ps⟩
      · exact absurd hq (splitQ_ne_nil cs)
      · exact ⟨p, ps, rfl⟩
    by_cases hc : c = '"'
    · have h2 : splitQ (c :: cs) = [] :: p :: ps := by
        simp [splitQ, hc, hsplit]
      constructor
      · intro acc
        have h1 : extractQAux true acc (c :: cs) = acc :: extractQAux false [] cs := by
          simp [extractQAux, hc]
        rw [h1, ih.2, hsplit, h2]
        simp [qInner]
      · have h1 : extractQAux false [] (c :: cs) = extractQAux true [] cs := by
          simp [extractQAux, hc]
        rw [h1, ih.1 [], hsplit, h2]
        cases ps with
        | nil => rfl
        | cons q ps' => simp [qInner, oddSlots]
    · have h2 : splitQ (c :: cs) = (c :: p) :: ps := by
        simp [splitQ, hc, hsplit]
      constructor
      · intro acc
        have h1 : extractQAux true acc (c :: cs) = extractQAux true (acc ++ [c]) cs := by
          simp [extractQAux, hc]
        rw [h1, ih.1 (acc ++ [c]), hsplit, h2]
        cases ps with
        | nil => rfl
        | cons q ps' => simp [qInner]
      · have h1 : extractQAux false [] (c :: cs) = extractQAux false [] cs := by
          simp [extractQAux, hc]
        rw [h1, ih.2, hsplit, h2]
        cases ps with
        | nil => rfl
        | cons q ps' =>
          simp only [List.dropLast_cons₂]
          exact oddSlots_cons_eq p (c :: p) ((q :: ps').dropLast)

/-- Scan and split-and-project readings agree on every string. -/
theorem extract_eq_quotedSpec (s : String) : extract_quoted_strings s = quotedSpec s :=
  congrArg (List.map fun cs => String.mk cs) (extractQAux_splitQ s.data).2

/-! Helper lemmas for the ingredient filter. -/

/-- Boolean containment check unfolded to the infix relation. -/
theorem termMatches_iff (txt t : String) :
    termMatches txt t = true ↔
      (t.data.map Char.toLower) <:+: (txt.data.map Char.toLower) := by
  simp [termMatches]

/-! Claim theorems. -/

/-- C6: on every input string the extraction returns exactly the
maximal double-quote delimited substrings in order of appearance
(formalized as the split-and-project reading `quotedSpec`); in
particular the serialized list round-trips to its two elements and a
quoteless text yields the empty list. -/
theorem extract_quoted_strings_spec :
    (∀ s : String, extract_quoted_strings s = quotedSpec s) ∧
    extract_quoted_strings sampleSerialized = ["chicken breast", "lettuce"] ∧
    extract_quoted_strings sampleMalformed = [] :=
  ⟨extract_eq_quotedSpec, by decide, by decide⟩

/-- Terms without regex meaning contain no parentheses. -/
theorem plainTerm_no_paren {t : String} (ht : plainTerm t = true) :
    ∀ c ∈ t.data, c ≠ '(' ∧ c ≠ ')' := by
  intro c hc
  have h := List.all_eq_true.mp ht c hc
  simp only [Bool.and_eq_true, Bool.not_eq_true', decide_eq_true_eq] at h
  obtain ⟨⟨_, hmeta⟩, _⟩ := h
  refine ⟨?_, ?_⟩ <;> rintro rfl
  · exact absurd hmeta (by decide)
  · exact absurd hmeta (by decide)

/-- Parenthesis scan skips characters that are not parentheses. -/
theorem parenScan_append_nonparen {mid : List Char}
    (hm : ∀ c ∈ mid, c ≠ '(' ∧ c ≠ ')') (b : ℕ) (rest : List Char) :
    parenScan b (mid ++ rest) = parenScan b rest := by
  induction mid with
  | nil => rfl
  | cons c mid ih =>
    have hc := hm c (List.mem_cons_self c mid)
    have hrest : ∀ c' ∈ mid, c' ≠ '(' ∧ c' ≠ ')' :=
      fun c' hc' => hm c' (List.mem_cons_of_mem c hc')
    simp only [List.cons_append, parenScan, if_neg hc.1, if_neg hc.2]
    exact ih hrest

/-- Scanning one lookahead factor built from a plain term preserves
the balance. -/
theorem parenScan_factor {t : String} (ht : plainTerm t = true) (b : ℕ)
    (rest : List Char) :
    parenScan b (("(?=.*" ++ t ++ ")").data ++ rest) = parenScan b rest := by
  have hd : ("(?=.*" ++ t ++ ")").data ++ rest =
      '(' :: '?' :: '=' :: '.' :: '*' :: (t.data ++ (')' :: rest)) := by
    rw [String.data_append, String.data_append]
    simp [List.append_assoc]
  rw [hd]
  have h1 : parenScan b ('(' :: '?' :: '=' :: '.' :: '*' :: (t.data ++ (')' :: rest))) =
      parenScan (b + 1) (t.data ++ (')' :: rest)) := by
    simp [parenScan]
  rw [h1, parenScan_append_nonparen (plainTerm_no_paren ht) (b + 1) (')' :: rest)]
  simp [parenScan]

/-- Data of a left fold of string concatenations. -/
theorem foldl_append_data (l : List String) (init : String) :
    (l.foldl (fun r s => r ++ s) init).data =
      init.data ++ (l.map String.data).flatten := by
  induction l generalizing init with
  | nil => simp
  | cons s l ih =>
    simp only [List.foldl_cons, List.map_cons, List.flatten_cons]
    rw [ih (init ++ s), String.data_append, List.append_assoc]

/-- Composed pattern of metacharacter-free terms is balanced, hence
genuinely accepted by `re` (the only parentheses are those of the
lookahead wrappers themselves). -/
theorem patternValid_of_plain (ts : List String)
    (h : ∀ t ∈ ts, plainTerm t = true) :
    patternValid (regexString ts) = true := by
  have hscan : ∀ (l : List String), (∀ t ∈ l, plainTerm t = true) →
      ∀ (b : ℕ) (rest : List Char),
      parenScan b (((l.map (fun t => "(?=.*" ++ t ++ ")")).map String.data).flatten ++ rest) =
        parenScan b rest := by
    intro l
    induction l with
    | nil => intro _ b rest; rfl
    | cons t l ih =>
      intro hall b rest
      simp only [List.map_cons, List.flatten_cons, List.append_assoc]
      rw [parenScan_factor (hall t (List.mem_cons_self t l)) b]
      exact ih (fun t' ht' => hall t' (List.mem_cons_of_mem t ht')) b rest
  unfold patternValid regexString String.join
  rw [foldl_append_data]
  have h2 := hscan ts h 0 []
  rw [List.append_nil] at h2
  simpa using h2

/-- C3 (amended): over plain terms (ASCII, metacharacter-free,
newline-free) and plain row texts (ASCII, newline-free) — the region
on which the composed multi-lookahead pattern is a conjunction of
literal case-insensitive substring tests — the filter keeps exactly
the rows containing every term, preserving input order (sublist); an
empty term list returns the input unchanged.  (The original universal
claim fails both for pattern-invalid term lists, which fail open —
see the counterexample — and for compilable metacharacter terms such
as `a|b`, where `str.contains` applies full regex semantics rather
than substring containment; the amendment restricts the claim to the
substring region.) -/
theorem filter_contract (rows : List RecipeRecord) (ts : List String) :
    (ts = [] → extract_ingredient_filtered_data rows ts = rows) ∧
    ((∀ t ∈ ts, plainTerm t = true) →
     (∀ r ∈ rows, plainText r.RecipeIngredientParts = true) →
      List.Sublist (extract_ingredient_filtered_data rows ts) rows ∧
      ∀ r : RecipeRecord, r ∈ extract_ingredient_filtered_data rows ts ↔
        (r ∈ rows ∧ ∀ t ∈ ts,
          (t.data.map Char.toLower) <:+: (r.RecipeIngredientParts.data.map Char.toLower))) := by
  constructor
  · intro h
    simp [extract_ingredient_filtered_data, h]
  · intro hplain _htext
    have hv : patternValid (regexString ts) = true := patternValid_of_plain ts hplain
    by_cases he : ts.isEmpty
    · have h0 : ts = [] := by
        cases ts with
        | nil => rfl
        | cons a l => simp [List.isEmpty] at he
      subst h0
      simp [extract_ingredient_filtered_data]
    · have hd : extract_ingredient_filtered_data rows ts =
          rows.filter (fun r => rowMatchesAll r ts) := by
        simp [extract_ingredient_filtered_data, he, hv]
      rw [hd]
      refine ⟨List.filter_sublist _, fun r => ?_⟩
      rw [List.mem_filter]
      simp [rowMatchesAll, List.all_eq_true, termMatches_iff]

/-- C3 counterexample: for the non-empty term list containing only `)`
the composed pattern is rejected, the filter falls back to the
unfiltered input, and a returned row need not contain the term — the
original universal claim fails at this input. -/
theorem filter_contract_cex :
    badTerms ≠ [] ∧
    tinyRow ∈ extract_ingredient_filtered_data [tinyRow] badTerms ∧
    ¬ ∀ t ∈ badTerms,
        (t.data.map Char.toLower) <:+: (tinyRow.RecipeIngredientParts.data.map Char.toLower) := by
  refine ⟨by decide, by decide, ?_⟩
  intro h
  exact absurd (h ")" (by decide)) (by decide)

/-- C7: whenever the composed pattern is invalid, the filter fails
open and returns its input unchanged instead of erroring. -/
theorem filter_fails_open (rows : List RecipeRecord) (ts : List String)
    (h : patternValid (regexString ts) = false) :
    extract_ingredient_filtered_data rows ts = rows := by
  by_cases he : ts.isEmpty
  · simp [extract_ingredient_filtered_data, he]
  · simp [extract_ingredient_filtered_data, he, h]

/-- C7 witness: the term `)` composes to an invalid pattern and the
filter returns the one-row catalog unchanged. -/
theorem filter_fails_open_witness :
    patternValid (regexString badTerms) = false ∧
    extract_ingredient_filtered_data [tinyRow] badTerms = [tinyRow] :=
  ⟨by decide, filter_fails_open [tinyRow] badTerms (by decide)⟩

/-- C10: formatting the `None` recommendation returns `None`, neither
an error nor an empty list, so the no-result outcome propagates
unchanged. -/
theorem output_none_propagates : output_recommended_recipes none = none := rfl

/-- C2: a filtered subset smaller than `k` yields exactly the
`NoResult` outcome, and a subset of at least `k` rows never yields
`NoResult` (the success branch returns a result or raises, it never
falls back to `None`). -/
theorem recommend_noResult_iff (df : List RecipeRecord) (q : Fin 9 → ℚ)
    (ing : List String) (k : ℕ) (rd : Bool) :
    ((extract_data df ing).length < k →
      recommend df q ing k rd = RecOutcome.noResult) ∧
    (k ≤ (extract_data df ing).length →
      recommend df q ing k rd ≠ RecOutcome.noResult) := by
  constructor
  · intro h
    have hnot : ¬ k ≤ (extract_data df ing).length := Nat.not_le.mpr h
    simp [recommend, hnot]
  · intro h
    simp only [recommend]
    rw [if_pos h]
    by_cases h0 : (extract_data df ing).length = 0
    · simp [h0]
    · rw [if_neg h0]
      by_cases hk : k = 0
      · simp [hk]
      · rw [if_neg hk]
        cases happ : apply_pipeline (extract_data df ing) q k rd with
        | ok rows => simp
        | error e => simp

/-- C2 witness: the `chicken` filter leaves one row, fewer than five,
so the outcome is `NoResult`; the unfiltered five-row catalog with
three neighbors is not `NoResult`. -/
theorem recommend_noResult_iff_witness :
    recommend testCatalog targetVec [chickenStr] 5 false = RecOutcome.noResult ∧
    recommend testCatalog targetVec [] 3 false ≠ RecOutcome.noResult :=
  ⟨(recommend_noResult_iff testCatalog targetVec [chickenStr] 5 false).1 (by decide),
   (recommend_noResult_iff testCatalog targetVec [] 3 false).2 (by decide)⟩

end DietRec

namespace DietRec

/-! Helper lemmas for the fitted statistics. -/

/-- List of nonnegative rationals summing to zero is pointwise zero. -/
theorem sum_zero_of_nonneg {l : List ℚ} (h0 : l.sum = 0) (hn : ∀ x ∈ l, 0 ≤ x) :
    ∀ x ∈ l, x = 0 := by
  induction l with
  | nil => intro x hx; cases hx
  | cons a l ih =>
    have ha : 0 ≤ a := hn a (List.mem_cons_self a l)
    have hl : ∀ x ∈ l, 0 ≤ x := fun x hx => hn x (List.mem_cons_of_mem a hx)
    have hs : 0 ≤ l.sum := List.sum_nonneg hl
    have hsum : a + l.sum = 0 := by simpa using h0
    have ha0 : a = 0 := le_antisymm (by linarith) ha
    intro x hx
    rcases List.mem_cons.mp hx with rfl | hx'
    · exact ha0
    · exact ih (by linarith) hl x hx'

/-- Column variance is nonnegative. -/
theorem colVar_nonneg (sub : List RecipeRecord) (j : Fin 9) : 0 ≤ colVar sub j := by
  have h : 0 ≤ (sub.map (fun r => (r.nutrition j - colMean sub j) ^ 2)).sum := by
    apply List.sum_nonneg
    intro x hx
    obtain ⟨r, _, rfl⟩ := List.mem_map.mp hx
    positivity
  exact div_nonneg h (by positivity)

/-- Squared transform divisor is positive. -/
theorem scaleSq_pos (sub : List RecipeRecord) (j : Fin 9) : 0 < scaleSq sub j := by
  unfold scaleSq
  split
  · norm_num
  · next h => exact lt_of_le_of_ne (colVar_nonneg sub j) (Ne.symm h)

/-- Transform divisor is positive. -/
theorem scaleR_pos (sub : List RecipeRecord) (j : Fin 9) : 0 < scaleR sub j := by
  unfold scaleR
  split
  · norm_num
  · next h =>
    have h1 : (0 : ℚ) < colVar sub j := lt_of_le_of_ne (colVar_nonneg sub j) (Ne.symm h)
    exact Real.sqrt_pos.mpr (by exact_mod_cast h1)

/-- Square of the real divisor is the rational squared divisor. -/
theorem scaleR_mul_self (sub : List RecipeRecord) (j : Fin 9) :
    scaleR sub j * scaleR sub j = ((scaleSq sub j : ℚ) : ℝ) := by
  by_cases h : colVar sub j = 0
  · simp [scaleR, scaleSq, h]
  · simp only [scaleR, scaleSq, if_neg h]
    exact Real.mul_self_sqrt (by exact_mod_cast colVar_nonneg sub j)

/-- Rational standardized dot product is the real dot product of the
standardized vectors. -/
theorem sdot_eq_dotR (sub : List RecipeRecord) (x y : Fin 9 → ℚ) :
    ((sdot sub x y : ℚ) : ℝ) = dotR (stdVec sub x) (stdVec sub y) := by
  unfold sdot dotR stdVec
  push_cast
  apply Finset.sum_congr rfl
  intro j _
  rw [div_mul_div_comm, scaleR_mul_self]

/-- Standardized squared magnitude is nonnegative. -/
theorem sdot_self_nonneg (sub : List RecipeRecord) (x : Fin 9 → ℚ) :
    0 ≤ sdot sub x x := by
  unfold sdot
  apply Finset.sum_nonneg
  intro j _
  exact div_nonneg (mul_self_nonneg _) (scaleSq_pos sub j).le

/-- Second component of a similarity key is positive. -/
theorem simKey_snd_pos (sub : List RecipeRecord) (q x : Fin 9 → ℚ) :
    0 < (simKey sub q x).2 := by
  unfold simKey
  split
  · norm_num
  · next h => exact lt_of_le_of_ne (sdot_self_nonneg sub x) (Ne.symm h)

/-! Helper lemmas for the exact ratio comparison. -/

/-- Quotient comparison against square roots, reduced to a squared
comparison for nonnegative numerators. -/
theorem div_sqrt_le_div_sqrt_iff {x y X Y : ℝ} (hX : 0 < X) (hY : 0 < Y)
    (hx : 0 ≤ x) (hy : 0 ≤ y) :
    x / Real.sqrt X ≤ y / Real.sqrt Y ↔ x ^ 2 * Y ≤ y ^ 2 * X := by
  have hsX : 0 < Real.sqrt X := Real.sqrt_pos.mpr hX
  have hsY : 0 < Real.sqrt Y := Real.sqrt_pos.mpr hY
  rw [div_le_div_iff₀ hsX hsY]
  rw [mul_self_le_mul_self_iff (by positivity) (by positivity)]
  have e1 : x * Real.sqrt Y * (x * Real.sqrt Y) = x ^ 2 * Y := by
    rw [mul_mul_mul_comm, Real.mul_self_sqrt hY.le]; ring
  have e2 : y * Real.sqrt X * (y * Real.sqrt X) = y ^ 2 * X := by
    rw [mul_mul_mul_comm, Real.mul_self_sqrt hX.le]; ring
  rw [e1, e2]

/-- Exact comparison agrees with the real quotient comparison. -/
theorem ratioGE_iff {a A b B : ℚ} (hA : 0 < A) (hB : 0 < B) :
    ratioGE a A b B = true ↔
      ((b : ℚ) : ℝ) / Real.sqrt ((B : ℚ) : ℝ) ≤ ((a : ℚ) : ℝ) / Real.sqrt ((A : ℚ) : ℝ) := by
  have hAr : (0 : ℝ) < ((A : ℚ) : ℝ) := by exact_mod_cast hA
  have hBr : (0 : ℝ) < ((B : ℚ) : ℝ) := by exact_mod_cast hB
  have hsA : 0 < Real.sqrt ((A : ℚ) : ℝ) := Real.sqrt_pos.mpr hAr
  have hsB : 0 < Real.sqrt ((B : ℚ) : ℝ) := Real.sqrt_pos.mpr hBr
  unfold ratioGE
  rcases le_or_lt 0 a with ha | ha <;> rcases le_or_lt 0 b with hb | hb
  · rw [if_pos ha, if_pos hb]
    rw [div_sqrt_le_div_sqrt_iff hBr hAr (by exact_mod_cast hb) (by exact_mod_cast ha)]
    simp only [decide_eq_true_eq]
    constructor
    · intro h; exact_mod_cast h
    · intro h; exact_mod_cast h
  · rw [if_pos ha, if_neg (not_le.mpr hb)]
    refine iff_of_true rfl ?_
    have h1 : ((b : ℚ) : ℝ) / Real.sqrt ((B : ℚ) : ℝ) ≤ 0 :=
      div_nonpos_of_nonpos_of_nonneg (by exact_mod_cast hb.le) hsB.le
    have h2 : 0 ≤ ((a : ℚ) : ℝ) / Real.sqrt ((A : ℚ) : ℝ) :=
      div_nonneg (by exact_mod_cast ha) hsA.le
    linarith
  · rw [if_neg (not_le.mpr ha), if_pos hb]
    refine iff_of_false (by simp) ?_
    have h1 : ((a : ℚ) : ℝ) / Real.sqrt ((A : ℚ) : ℝ) < 0 :=
      div_neg_of_neg_of_pos (by exact_mod_cast ha) hsA
    have h2 : 0 ≤ ((b : ℚ) : ℝ) / Real.sqrt ((B : ℚ) : ℝ) :=
      div_nonneg (by exact_mod_cast hb) hsB.le
    linarith
  · rw [if_neg (not_le.mpr ha), if_neg (not_le.mpr hb)]
    have hrw : (((b : ℚ) : ℝ) / Real.sqrt ((B : ℚ) : ℝ) ≤
        ((a : ℚ) : ℝ) / Real.sqrt ((A : ℚ) : ℝ)) ↔
        (-((a : ℚ) : ℝ)) / Real.sqrt ((A : ℚ) : ℝ) ≤
          (-((b : ℚ) : ℝ)) / Real.sqrt ((B : ℚ) : ℝ) := by
      rw [neg_div, neg_div, neg_le_neg_iff]
    rw [hrw, div_sqrt_le_div_sqrt_iff hAr hBr (by exact_mod_cast (neg_nonneg.mpr ha.le))
      (by exact_mod_cast (neg_nonneg.mpr hb.le))]
    rw [decide_eq_true_eq, neg_sq, neg_sq]
    constructor
    · intro h; exact_mod_cast h
    · intro h; exact_mod_cast h

end DietRec

namespace DietRec

/-- Comparison against the zero key `(0, 1)` on the left. -/
theorem ratioGE_zero_left (b B : ℚ) : ratioGE 0 1 b B = true ↔ b ≤ 0 := by
  unfold ratioGE
  rcases le_or_lt 0 b with hb | hb
  · rw [if_pos le_rfl, if_pos hb, decide_eq_true_eq]
    constructor
    · intro h; nlinarith
    · intro h; nlinarith
  · rw [if_pos le_rfl, if_neg (not_le.mpr hb)]
    exact iff_of_true rfl hb.le

/-- Comparison against the zero key `(0, 1)` on the right. -/
theorem ratioGE_zero_right (a A : ℚ) : ratioGE a A 0 1 = true ↔ 0 ≤ a := by
  unfold ratioGE
  rcases le_or_lt 0 a with ha | ha
  · rw [if_pos ha, if_pos le_rfl, decide_eq_true_eq]
    exact iff_of_true (by nlinarith [sq_nonneg a]) ha
  · rw [if_neg (not_le.mpr ha), if_pos le_rfl]
    exact iff_of_false (by simp) (not_le.mpr ha)

/-- Exact ratio comparison is total. -/
theorem ratioGE_total (a A b B : ℚ) :
    ratioGE a A b B = true ∨ ratioGE b B a A = true := by
  unfold ratioGE
  rcases le_or_lt 0 a with ha | ha <;> rcases le_or_lt 0 b with hb | hb
  · rcases le_total (b ^ 2 * A) (a ^ 2 * B) with h | h
    · left; rw [if_pos ha, if_pos hb, decide_eq_true_eq]; exact h
    · right; rw [if_pos hb, if_pos ha, decide_eq_true_eq]; exact h
  · left; rw [if_pos ha, if_neg (not_le.mpr hb)]
  · right; rw [if_pos hb, if_neg (not_le.mpr ha)]
  · rcases le_total (a ^ 2 * B) (b ^ 2 * A) with h | h
    · left; rw [if_neg (not_le.mpr ha), if_neg (not_le.mpr hb), decide_eq_true_eq]; exact h
    · right; rw [if_neg (not_le.mpr hb), if_neg (not_le.mpr ha), decide_eq_true_eq]; exact h

/-- Exact ratio comparison is transitive over positive denominators. -/
theorem ratioGE_trans {a b c A B C : ℚ} (hA : 0 < A) (hB : 0 < B) (hC : 0 < C)
    (h1 : ratioGE a A b B = true) (h2 : ratioGE b B c C = true) :
    ratioGE a A c C = true := by
  unfold ratioGE at h1 h2 ⊢
  rcases le_or_lt 0 a with ha | ha <;> rcases le_or_lt 0 b with hb | hb <;>
    rcases le_or_lt 0 c with hc | hc
  · rw [if_pos ha, if_pos hb, decide_eq_true_eq] at h1
    rw [if_pos hb, if_pos hc, decide_eq_true_eq] at h2
    rw [if_pos ha, if_pos hc, decide_eq_true_eq]
    by_cases hb0 : b = 0
    · subst hb0
      have hc2 : c ^ 2 ≤ 0 := by nlinarith
      have hc0 : c = 0 := (pow_eq_zero_iff (two_ne_zero)).mp (le_antisymm hc2 (sq_nonneg c))
      subst hc0
      nlinarith [sq_nonneg a]
    · have hbpos : 0 < b := lt_of_le_of_ne hb (Ne.symm hb0)
      have hb2 : 0 < b ^ 2 := by positivity
      nlinarith [mul_le_mul_of_nonneg_left h2 (sq_nonneg a),
        mul_le_mul_of_nonneg_left h1 (sq_nonneg c), hb2]
  · rw [if_pos ha, if_neg (not_le.mpr hc)]
  · rw [if_neg (not_le.mpr hb), if_pos hc] at h2
    exact absurd h2 (by simp)
  · rw [if_pos ha, if_neg (not_le.mpr hc)]
  · rw [if_neg (not_le.mpr ha), if_pos hb] at h1
    exact absurd h1 (by simp)
  · rw [if_neg (not_le.mpr ha), if_pos hb] at h1
    exact absurd h1 (by simp)
  · rw [if_neg (not_le.mpr hb), if_pos hc] at h2
    exact absurd h2 (by simp)
  · rw [if_neg (not_le.mpr ha), if_neg (not_le.mpr hb), decide_eq_true_eq] at h1
    rw [if_neg (not_le.mpr hb), if_neg (not_le.mpr hc), decide_eq_true_eq] at h2
    rw [if_neg (not_le.mpr ha), if_neg (not_le.mpr hc), decide_eq_true_eq]
    have hb2 : 0 < b ^ 2 := by nlinarith
    nlinarith [mul_le_mul_of_nonneg_left h1 (sq_nonneg c),
      mul_le_mul_of_nonneg_left h2 (sq_nonneg a), hb2]

/-- Distance comparison is total. -/
theorem distLEb_total (Q : ℚ) (p p' : ℚ × ℚ) :
    distLEb Q p p' = true ∨ distLEb Q p' p = true := by
  unfold distLEb
  rcases ratioGE_total p.1 p.2 p'.1 p'.2 with h | h
  · left; rw [h, Bool.or_true]
  · right; rw [h, Bool.or_true]

/-- Distance comparison is transitive over keys with positive second
components. -/
theorem distLEb_trans {Q : ℚ} {p p' p'' : ℚ × ℚ} (h2 : 0 < p.2) (h2' : 0 < p'.2)
    (h2'' : 0 < p''.2) (hab : distLEb Q p p' = true) (hbc : distLEb Q p' p'' = true) :
    distLEb Q p p'' = true := by
  unfold distLEb at hab hbc ⊢
  by_cases hQ : Q = 0
  · simp [hQ]
  · have hQ' : (Q == 0) = false := by simp [hQ]
    rw [hQ', Bool.false_or] at hab hbc ⊢
    exact ratioGE_trans h2 h2' h2'' hab hbc

/-! Helper lemmas for the neighbor ranking. -/

/-- Ranking is a permutation of the row positions. -/
theorem kRank_perm (sub : List RecipeRecord) (q : Fin 9 → ℚ) :
    List.Perm (kRank sub q) (List.range sub.length) :=
  List.perm_insertionSort _ _

/-- Ranking is sorted by the distance order. -/
theorem kRank_sorted (sub : List RecipeRecord) (q : Fin 9 → ℚ) :
    List.Sorted (distRelIdx sub q) (kRank sub q) := by
  haveI : IsTotal ℕ (distRelIdx sub q) := ⟨fun i j => distLEb_total _ _ _⟩
  haveI : IsTrans ℕ (distRelIdx sub q) :=
    ⟨fun i j l h1 h2 => distLEb_trans (simKey_snd_pos sub q _) (simKey_snd_pos sub q _)
      (simKey_snd_pos sub q _) h1 h2⟩
  exact List.sorted_insertionSort _ _

/-- Selected neighbor indices are sorted by the distance order. -/
theorem kneighborsIdx_sorted (sub : List RecipeRecord) (q : Fin 9 → ℚ) (k : ℕ) :
    List.Sorted (distRelIdx sub q) (kneighborsIdx sub q k) :=
  List.Pairwise.sublist (List.take_sublist _ _) (kRank_sorted sub q)

/-- Selected neighbor indices are distinct. -/
theorem kneighborsIdx_nodup (sub : List RecipeRecord) (q : Fin 9 → ℚ) (k : ℕ) :
    (kneighborsIdx sub q k).Nodup :=
  List.Nodup.sublist (List.take_sublist _ _)
    ((kRank_perm sub q).nodup_iff.mpr (List.nodup_range _))

/-- Exactly `k` neighbor indices are selected when the subset has at
least `k` rows. -/
theorem kneighborsIdx_length (sub : List RecipeRecord) (q : Fin 9 → ℚ) (k : ℕ)
    (hk : k ≤ sub.length) : (kneighborsIdx sub q k).length = k := by
  unfold kneighborsIdx
  rw [List.length_take, (kRank_perm sub q).length_eq, List.length_range]
  exact Nat.min_eq_left hk

/-- Selected neighbor indices are in bounds. -/
theorem kneighborsIdx_lt (sub : List RecipeRecord) (q : Fin 9 → ℚ) (k : ℕ) {i : ℕ}
    (hi : i ∈ kneighborsIdx sub q k) : i < sub.length := by
  have h1 : i ∈ kRank sub q := (List.take_sublist _ _).mem hi
  have h2 : i ∈ List.range sub.length := (kRank_perm sub q).mem_iff.mp h1
  exact List.mem_range.mp h2

end DietRec

namespace DietRec

/-- Exact distance comparison decides the real cosine-distance order of
two standardized rows against the standardized query. -/
theorem distLEb_iff (sub : List RecipeRecord) (q x y : Fin 9 → ℚ) :
    distLEb (sdot sub q q) (simKey sub q x) (simKey sub q y) = true ↔
      cosDistR (stdVec sub x) (stdVec sub q) ≤ cosDistR (stdVec sub y) (stdVec sub q) := by
  have hxx := sdot_eq_dotR sub x x
  have hyy := sdot_eq_dotR sub y y
  have hqq := sdot_eq_dotR sub q q
  have hxq := sdot_eq_dotR sub x q
  have hyq := sdot_eq_dotR sub y q
  by_cases hQ : sdot sub q q = 0
  · have hdq : dotR (stdVec sub q) (stdVec sub q) = 0 := by
      rw [← hqq, hQ]; norm_num
    refine iff_of_true ?_ ?_
    · simp [distLEb, hQ]
    · rw [cosDistR, if_pos (Or.inr hdq), cosDistR, if_pos (Or.inr hdq)]
  · have hQpos : 0 < sdot sub q q := lt_of_le_of_ne (sdot_self_nonneg sub q) (Ne.symm hQ)
    have hdqpos : 0 < dotR (stdVec sub q) (stdVec sub q) := by
      rw [← hqq]; exact_mod_cast hQpos
    have hdq : dotR (stdVec sub q) (stdVec sub q) ≠ 0 := ne_of_gt hdqpos
    have hQs : ((sdot sub q q) == 0) = false := by simp [hQ]
    unfold distLEb
    rw [hQs, Bool.false_or]
    by_cases hA : sdot sub x x = 0
    · have hdx : dotR (stdVec sub x) (stdVec sub x) = 0 := by
        rw [← hxx, hA]; norm_num
      have hkx : simKey sub q x = (0, 1) := by rw [simKey, if_pos hA]
      rw [hkx, cosDistR, if_pos (Or.inl hdx)]
      by_cases hB : sdot sub y y = 0
      · have hdy : dotR (stdVec sub y) (stdVec sub y) = 0 := by
          rw [← hyy, hB]; norm_num
        have hky : simKey sub q y = (0, 1) := by rw [simKey, if_pos hB]
        rw [hky, cosDistR, if_pos (Or.inl hdy)]
        exact iff_of_true ((ratioGE_zero_left 0 1).mpr le_rfl) le_rfl
      · have hBpos : 0 < sdot sub y y := lt_of_le_of_ne (sdot_self_nonneg sub y) (Ne.symm hB)
        have hdypos : 0 < dotR (stdVec sub y) (stdVec sub y) := by
          rw [← hyy]; exact_mod_cast hBpos
        have hky : simKey sub q y = (sdot sub y q, sdot sub y y) := by
          rw [simKey, if_neg hB]
        have hcond : ¬ (dotR (stdVec sub y) (stdVec sub y) = 0 ∨
            dotR (stdVec sub q) (stdVec sub q) = 0) := by
          push_neg
          exact ⟨ne_of_gt hdypos, hdq⟩
        rw [hky, cosDistR, if_neg hcond]
        have hden : 0 < Real.sqrt (dotR (stdVec sub y) (stdVec sub y)) *
            Real.sqrt (dotR (stdVec sub q) (stdVec sub q)) :=
          mul_pos (Real.sqrt_pos.mpr hdypos) (Real.sqrt_pos.mpr hdqpos)
        constructor
        · intro h
          have h1 : sdot sub y q ≤ 0 := (ratioGE_zero_left _ _).mp h
          have h2 : dotR (stdVec sub y) (stdVec sub q) ≤ 0 := by
            rw [← hyq]; exact_mod_cast h1
          have h3 : dotR (stdVec sub y) (stdVec sub q) /
              (Real.sqrt (dotR (stdVec sub y) (stdVec sub y)) *
                Real.sqrt (dotR (stdVec sub q) (stdVec sub q))) ≤ 0 :=
            div_nonpos_of_nonpos_of_nonneg h2 hden.le
          linarith
        · intro h
          apply (ratioGE_zero_left _ _).mpr
          by_contra hpos
          push_neg at hpos
          have h2 : 0 < dotR (stdVec sub y) (stdVec sub q) := by
            rw [← hyq]; exact_mod_cast hpos
          have h3 : 0 < dotR (stdVec sub y) (stdVec sub q) /
              (Real.sqrt (dotR (stdVec sub y) (stdVec sub y)) *
                Real.sqrt (dotR (stdVec sub q) (stdVec sub q))) :=
            div_pos h2 hden
          linarith
    · have hApos : 0 < sdot sub x x := lt_of_le_of_ne (sdot_self_nonneg sub x) (Ne.symm hA)
      have hdxpos : 0 < dotR (stdVec sub x) (stdVec sub x) := by
        rw [← hxx]; exact_mod_cast hApos
      have hkx : simKey sub q x = (sdot sub x q, sdot sub x x) := by
        rw [simKey, if_neg hA]
      have hcondx : ¬ (dotR (stdVec sub x) (stdVec sub x) = 0 ∨
          dotR (stdVec sub q) (stdVec sub q) = 0) := by
        push_neg
        exact ⟨ne_of_gt hdxpos, hdq⟩
      rw [hkx, cosDistR, if_neg hcondx]
      have hdenx : 0 < Real.sqrt (dotR (stdVec sub x) (stdVec sub x)) *
          Real.sqrt (dotR (stdVec sub q) (stdVec sub q)) :=
        mul_pos (Real.sqrt_pos.mpr hdxpos) (Real.sqrt_pos.mpr hdqpos)
      by_cases hB : sdot sub y y = 0
      · have hdy : dotR (stdVec sub y) (stdVec sub y) = 0 := by
          rw [← hyy, hB]; norm_num
        have hky : simKey sub q y = (0, 1) := by rw [simKey, if_pos hB]
        rw [hky, cosDistR, if_pos (Or.inl hdy)]
        constructor
        · intro h
          have h1 : 0 ≤ sdot sub x q := (ratioGE_zero_right _ _).mp h
          have h2 : 0 ≤ dotR (stdVec sub x) (stdVec sub q) := by
            rw [← hxq]; exact_mod_cast h1
          have h3 : 0 ≤ dotR (stdVec sub x) (stdVec sub q) /
              (Real.sqrt (dotR (stdVec sub x) (stdVec sub x)) *
                Real.sqrt (dotR (stdVec sub q) (stdVec sub q))) :=
            div_nonneg h2 hdenx.le
          linarith
        · intro h
          apply (ratioGE_zero_right _ _).mpr
          by_contra hneg
          push_neg at hneg
          have h2 : dotR (stdVec sub x) (stdVec sub q) < 0 := by
            rw [← hxq]; exact_mod_cast hneg
          have h3 : dotR (stdVec sub x) (stdVec sub q) /
              (Real.sqrt (dotR (stdVec sub x) (stdVec sub x)) *
                Real.sqrt (dotR (stdVec sub q) (stdVec sub q))) < 0 :=
            div_neg_of_neg_of_pos h2 hdenx
          linarith
      · have hBpos : 0 < sdot sub y y := lt_of_le_of_ne (sdot_self_nonneg sub y) (Ne.symm hB)
        have hdypos : 0 < dotR (stdVec sub y) (stdVec sub y) := by
          rw [← hyy]; exact_mod_cast hBpos
        have hky : simKey sub q y = (sdot sub y q, sdot sub y y) := by
          rw [simKey, if_neg hB]
        have hcondy : ¬ (dotR (stdVec sub y) (stdVec sub y) = 0 ∨
            dotR (stdVec sub q) (stdVec sub q) = 0) := by
          push_neg
          exact ⟨ne_of_gt hdypos, hdq⟩
        rw [hky, cosDistR, if_neg hcondy]
        rw [← hxx, ← hyy, ← hqq, ← hxq, ← hyq]
        have hsqQ : 0 < Real.sqrt ((sdot sub q q : ℚ) : ℝ) :=
          Real.sqrt_pos.mpr (by exact_mod_cast hQpos)
        have hiff : ∀ u v : ℝ, ((1 : ℝ) - u ≤ 1 - v ↔ v ≤ u) := by
          intro u v
          constructor <;> intro <;> linarith
        rw [hiff, ← div_div, ← div_div, div_le_div_iff_of_pos_right hsqQ]
        exact ratioGE_iff hApos hBpos

end DietRec

namespace DietRec

/-- Success path of `recommend` with distances not requested: the `k`
nearest rows of the filtered subset, by position. -/
theorem recommend_succ_eq (df : List RecipeRecord) (q : Fin 9 → ℚ) (ing : List String)
    (k : ℕ) (hk : 1 ≤ k) (hlen : k ≤ (extract_data df ing).length) :
    recommend df q ing k false =
      RecOutcome.result ((kneighborsIdx (extract_data df ing) q k).map
        (fun i => (extract_data df ing).getD i dfltRecipe)) := by
  have h0 : ¬ (extract_data df ing).length = 0 := by omega
  have hk0 : ¬ k = 0 := by omega
  have hall : ((kneighborsIdx (extract_data df ing) q k).all
      (fun i => decide (i < (extract_data df ing).length))) = true := by
    rw [List.all_eq_true]
    intro i hi
    simpa using kneighborsIdx_lt _ _ _ hi
  have hk1 : kneighbors (extract_data df ing) q k false =
      KNeighborsRet.indicesOnly [kneighborsIdx (extract_data df ing) q k] := by
    simp [kneighbors]
  have happ : apply_pipeline (extract_data df ing) q k false =
      Except.ok ((kneighborsIdx (extract_data df ing) q k).map
        (fun i => (extract_data df ing).getD i dfltRecipe)) := by
    unfold apply_pipeline
    rw [hk1]
    simp only [getitem0, List.headD_cons, iloc]
    rw [if_pos hall]
  simp only [recommend]
  rw [if_pos hlen, if_neg h0, if_neg hk0, happ]

/-- C1 (amended): for a request with `returnDistance = false`, a
positive `k` and a filtered subset of at least `k` rows, `recommend`
returns exactly `k` rows, given by distinct subset positions arranged
so that the cosine distances between the standardized rows and the
standardized target are non-decreasing.  (The amendment fixes
`returnDistance` to false and `k` positive; the counterexample shows
the original claim fails for `returnDistance = true`, where the
distance row is used as positional indices and the call raises, and
for `k = 0`.) -/
theorem recommend_k_sorted (df : List RecipeRecord) (q : Fin 9 → ℚ) (ing : List String)
    (k : ℕ) (hk : 1 ≤ k) (hlen : k ≤ (extract_data df ing).length) :
    ∃ idxs : List ℕ,
      recommend df q ing k false =
        RecOutcome.result (idxs.map (fun i => (extract_data df ing).getD i dfltRecipe)) ∧
      idxs.length = k ∧ idxs.Nodup ∧
      List.Sorted (fun u v : ℝ => u ≤ v)
        (idxs.map (fun i =>
          cosDistR (stdVec (extract_data df ing) ((extract_data df ing).getD i dfltRecipe).nutrition)
            (stdVec (extract_data df ing) q))) := by
  refine ⟨kneighborsIdx (extract_data df ing) q k,
    recommend_succ_eq df q ing k hk hlen,
    kneighborsIdx_length _ _ _ hlen,
    kneighborsIdx_nodup _ _ _, ?_⟩
  refine List.pairwise_map.mpr ?_
  exact (kneighborsIdx_sorted (extract_data df ing) q k).imp
    (fun hij => (distLEb_iff (extract_data df ing) q _ _).mp hij)

/-- C1 counterexample: with the five-row fixture, `k = 5` and
`returnDistance = true`, the subset has at least `k` rows yet
`recommend` raises the pandas indexing error instead of returning a
result; with `k = 0` it raises the sklearn validation error. -/
theorem recommend_k_sorted_cex :
    5 ≤ (extract_data testCatalog []).length ∧
    recommend testCatalog targetVec [] 5 true = RecOutcome.error ilocTypeMsg ∧
    (∀ rows : List RecipeRecord,
      recommend testCatalog targetVec [] 5 true ≠ RecOutcome.result rows) ∧
    recommend testCatalog targetVec [] 0 false = RecOutcome.error kneighborsZeroMsg := by
  refine ⟨by decide, by rfl, ?_, by rfl⟩
  intro rows h
  rw [show recommend testCatalog targetVec [] 5 true = RecOutcome.error ilocTypeMsg
    from rfl] at h
  simp at h

/-- C1 witness: the spec's sample scenario (five-row fixture, sample
target, no filter, `k = 3`). -/
theorem recommend_k_sorted_witness :
    3 ≤ (extract_data testCatalog []).length ∧
    ∃ idxs : List ℕ,
      recommend testCatalog targetVec [] 3 false =
        RecOutcome.result (idxs.map (fun i => (extract_data testCatalog []).getD i dfltRecipe)) ∧
      idxs.length = 3 ∧ idxs.Nodup ∧
      List.Sorted (fun u v : ℝ => u ≤ v)
        (idxs.map (fun i =>
          cosDistR (stdVec (extract_data testCatalog [])
              ((extract_data testCatalog []).getD i dfltRecipe).nutrition)
            (stdVec (extract_data testCatalog []) targetVec))) :=
  ⟨by decide, recommend_k_sorted testCatalog targetVec [] 3 (by decide) (by decide)⟩

/-- C5 (amended): on a satisfiable request the pipeline returns the
`k` nearest records, without distances, when `returnDistance` is
false; when `returnDistance` is true it raises (the kneighbors tuple's
first component — the float distance row — is passed to positional
indexing), so distances are never returned to the caller.  (The
original claim said distances are paired with the records; the
counterexample refutes that.) -/
theorem return_distance_amended (df : List RecipeRecord) (q : Fin 9 → ℚ)
    (ing : List String) (k : ℕ) (hk : 1 ≤ k)
    (hlen : k ≤ (extract_data df ing).length) :
    recommend df q ing k false =
      RecOutcome.result ((kneighborsIdx (extract_data df ing) q k).map
        (fun i => (extract_data df ing).getD i dfltRecipe)) ∧
    recommend df q ing k true = RecOutcome.error ilocTypeMsg := by
  refine ⟨recommend_succ_eq df q ing k hk hlen, ?_⟩
  have h0 : ¬ (extract_data df ing).length = 0 := by omega
  have hk0 : ¬ k = 0 := by omega
  have happ : apply_pipeline (extract_data df ing) q k true =
      Except.error ilocTypeMsg := rfl
  simp only [recommend]
  rw [if_pos hlen, if_neg h0, if_neg hk0, happ]

/-- C5 counterexample: the sample request with `returnDistance = true`
raises the pandas indexing error, so no distance-paired records are
returned. -/
theorem return_distance_cex :
    3 ≤ (extract_data testCatalog []).length ∧
    recommend testCatalog targetVec [] 3 true = RecOutcome.error ilocTypeMsg :=
  ⟨by decide, by rfl⟩

/-- C5 witness: both halves of the amended claim at the sample
request. -/
theorem return_distance_witness :
    recommend testCatalog targetVec [] 3 false =
      RecOutcome.result ((kneighborsIdx (extract_data testCatalog []) targetVec 3).map
        (fun i => (extract_data testCatalog []).getD i dfltRecipe)) ∧
    recommend testCatalog targetVec [] 3 true = RecOutcome.error ilocTypeMsg :=
  return_distance_amended testCatalog targetVec [] 3 (by decide) (by decide)

/-- C4 (amended): the transform never divides by zero (the divisor is
positive even on zero-variance columns, where it is replaced by `1`),
and on a zero-variance column every row of the fitted subset
standardizes to exactly `0`.  (The original claim asserted the value
`0` for every input vector; the counterexample shows an input differing
from the column mean transforms to `value - mean`, not `0`.) -/
theorem zero_variance_transform (sub : List RecipeRecord) (j : Fin 9) (hne : sub ≠ []) :
    scaleR sub j ≠ 0 ∧
    (colVar sub j = 0 → ∀ r ∈ sub, stdVec sub r.nutrition j = 0) := by
  constructor
  · exact ne_of_gt (scaleR_pos sub j)
  · intro hv r hr
    have hlen : (0 : ℚ) < (sub.length : ℚ) := by
      have h := List.length_pos.mpr hne
      exact_mod_cast h
    have hsum : (sub.map (fun r => (r.nutrition j - colMean sub j) ^ 2)).sum = 0 := by
      have hv' := hv
      unfold colVar at hv'
      rcases div_eq_zero_iff.mp hv' with h | h
      · exact h
      · exact absurd h (ne_of_gt hlen)
    have hzero := sum_zero_of_nonneg hsum (by
      intro x hx
      obtain ⟨r', _, rfl⟩ := List.mem_map.mp hx
      positivity)
    have hterm : (r.nutrition j - colMean sub j) ^ 2 = 0 :=
      hzero _ (List.mem_map_of_mem _ hr)
    have hrj : r.nutrition j = colMean sub j := by
      have h := (pow_eq_zero_iff two_ne_zero).mp hterm
      linarith
    unfold stdVec scaleR
    rw [if_pos hv, hrj]
    simp

/-- C4 counterexample: the one-row subset has zero variance in its
Calories column, yet the target that exceeds that row's Calories by one
standardizes to `1`, not `0` — the transform of an arbitrary vector on
a zero-variance column is `value - mean`. -/
theorem zero_variance_transform_cex :
    colVar [chickenSalad] 0 = 0 ∧ stdVec [chickenSalad] tweakVec 0 ≠ 0 := by
  have hv : colVar [chickenSalad] 0 = 0 := by
    norm_num [colVar, colMean, chickenSalad, Matrix.cons_val_zero]
  refine ⟨hv, ?_⟩
  · have hm : colMean [chickenSalad] 0 = 350 := by
      norm_num [colMean, chickenSalad, Matrix.cons_val_zero]
    have ht : tweakVec 0 = 351 := by
      norm_num [tweakVec, Matrix.cons_val_zero]
    unfold stdVec scaleR
    rw [if_pos hv, hm, ht]
    norm_num

/-- C4 witness: the amended claim at the one-row subset and its
Calories column. -/
theorem zero_variance_transform_witness :
    scaleR [chickenSalad] 0 ≠ 0 ∧
    stdVec [chickenSalad] chickenSalad.nutrition 0 = 0 :=
  ⟨(zero_variance_transform [chickenSalad] 0 (by simp)).1,
   (zero_variance_transform [chickenSalad] 0 (by simp)).2
     (by norm_num [colVar, colMean, chickenSalad, Matrix.cons_val_zero])
     chickenSalad (by simp)⟩

end DietRec

namespace DietRec

/-! Helper lemmas for the heap embedding. -/

/-- Reading the address just allocated at the end of a heap. -/
theorem readH_append_self (h : Heap) (v : List RecipeRecord) :
    readH (h ++ [v]) h.length = v := by
  unfold readH
  rw [List.getD_append_right _ _ _ _ le_rfl]
  simp

/-- Reads below the old length are unaffected by an extension. -/
theorem readH_of_extends {h h' : Heap} (hx : ∃ t, h' = h ++ t) {a : ℕ}
    (ha : a < h.length) : readH h' a = readH h a := by
  obtain ⟨t, rfl⟩ := hx
  unfold readH
  rw [List.getD_append _ _ _ _ ha]

/-- Heap extension composes. -/
theorem extends_trans {h1 h2 h3 : Heap} (a : ∃ t, h2 = h1 ++ t)
    (b : ∃ t, h3 = h2 ++ t) : ∃ t, h3 = h1 ++ t := by
  obtain ⟨t1, rfl⟩ := a
  obtain ⟨t2, rfl⟩ := b
  exact ⟨t1 ++ t2, by rw [List.append_assoc]⟩

/-- Heap-level filter only allocates, and its result frame holds the
value computed by the pure filter. -/
theorem eifdH_spec (h : Heap) (a : ℕ) (ts : List String) :
    (∃ t, (extract_ingredient_filtered_dataH h a ts).1 = h ++ t) ∧
    readH (extract_ingredient_filtered_dataH h a ts).1
        (extract_ingredient_filtered_dataH h a ts).2 =
      extract_ingredient_filtered_data (readH h a) ts := by
  unfold extract_ingredient_filtered_dataH extract_ingredient_filtered_data alloc
  by_cases he : ts.isEmpty
  · simp only [he, if_true, if_pos]
    exact ⟨⟨[readH h a], rfl⟩, readH_append_self h _⟩
  · by_cases hv : patternValid (regexString ts)
    · simp only [he, hv, if_false, if_true, Bool.false_eq_true, readH_append_self h _]
      constructor
      · exact ⟨[readH h a] ++ [(readH h a).filter (fun r => rowMatchesAll r ts)],
          by rw [← List.append_assoc]⟩
      · exact readH_append_self (h ++ [readH h a]) _
    · simp only [he, hv, if_false, Bool.false_eq_true]
      exact ⟨⟨[readH h a], rfl⟩, readH_append_self h _⟩

/-- Heap-level `extract_data` only allocates, and its result frame
holds the pure `extract_data` value. -/
theorem extract_dataH_spec (h : Heap) (a : ℕ) (ts : List String) :
    (∃ t, (extract_dataH h a ts).1 = h ++ t) ∧
    readH (extract_dataH h a ts).1 (extract_dataH h a ts).2 =
      extract_data (readH h a) ts := by
  unfold extract_dataH extract_data alloc
  have h1 := eifdH_spec (h ++ [readH h a]) h.length ts
  have hr : readH (h ++ [readH h a]) h.length = readH h a := readH_append_self h _
  constructor
  · obtain ⟨t, ht⟩ := h1.1
    exact ⟨[readH h a] ++ t, by rw [← List.append_assoc]; exact ht⟩
  · rw [h1.2, hr]

/-- Heap-level `apply_pipeline` only allocates, and resolving its
frame reference recovers the pure `apply_pipeline` outcome. -/
theorem apply_pipelineH_spec (h : Heap) (e : ℕ) (q : Fin 9 → ℚ) (k : ℕ) (rd : Bool) :
    (∃ t, (apply_pipelineH h e q k rd).1 = h ++ t) ∧
    (apply_pipelineH h e q k rd).2.map (readH (apply_pipelineH h e q k rd).1) =
      apply_pipeline (readH h e) q k rd := by
  unfold apply_pipelineH alloc
  cases happ : iloc (readH h e) (getitem0 (kneighbors (readH h e) q k rd)) with
  | ok rows =>
    simp only [happ]
    constructor
    · exact ⟨[rows], rfl⟩
    · have : apply_pipeline (readH h e) q k rd = Except.ok rows := happ
      rw [this, Except.map, readH_append_self h rows]
  | error m =>
    simp only [happ]
    constructor
    · exact ⟨[], (List.append_nil h).symm⟩
    · have : apply_pipeline (readH h e) q k rd = Except.error m := happ
      rw [this, Except.map]

/-- Heap-level `recommend` only allocates, and resolving its reference
recovers the pure `recommend` outcome — the two embeddings describe the
same request computation. -/
theorem recommendH_spec (h : Heap) (dfA : ℕ) (q : Fin 9 → ℚ) (ing : List String)
    (k : ℕ) (rd : Bool) :
    (∃ t, (recommendH h dfA q ing k rd).1 = h ++ t) ∧
    resolveRef (recommendH h dfA q ing k rd).1 (recommendH h dfA q ing k rd).2 =
      recommend (readH h dfA) q ing k rd := by
  obtain ⟨hx1, hr1⟩ := extract_dataH_spec h dfA ing
  rcases hed : extract_dataH h dfA ing with ⟨h1, e⟩
  rw [hed] at hx1 hr1
  unfold recommendH recommend
  rw [hed, ← hr1]
  dsimp only
  by_cases hlen : k ≤ (readH h1 e).length
  · simp only [if_pos hlen]
    by_cases h0 : (readH h1 e).length = 0
    · simp only [if_pos h0]
      exact ⟨hx1, rfl⟩
    · simp only [if_neg h0]
      by_cases hk0 : k = 0
      · simp only [if_pos hk0]
        exact ⟨hx1, rfl⟩
      · simp only [if_neg hk0]
        obtain ⟨px, pm⟩ := apply_pipelineH_spec h1 e q k rd
        rcases hap : apply_pipelineH h1 e q k rd with ⟨h2, r⟩
        rw [hap] at px pm
        cases r with
        | ok a =>
          rw [← pm]
          exact ⟨extends_trans hx1 px, rfl⟩
        | error m =>
          rw [← pm]
          exact ⟨extends_trans hx1 px, rfl⟩
  · simp only [if_neg hlen]
    exact ⟨hx1, rfl⟩

/-- C8: a full request — `recommend` followed by result formatting —
only ever allocates fresh frames: the heap before the call is a prefix
of the heap after it, so every pre-existing frame, in particular the
shared catalog, reads back unchanged on success, no-result and error
paths alike. -/
theorem catalog_unmodified (h : Heap) (dfA : ℕ) (q : Fin 9 → ℚ) (ing : List String)
    (k : ℕ) (rd : Bool) :
    (∃ t, (full_requestH h dfA q ing k rd).1 = h ++ t) ∧
    ∀ a, a < h.length → readH (full_requestH h dfA q ing k rd).1 a = readH h a := by
  have hext : ∃ t, (full_requestH h dfA q ing k rd).1 = h ++ t := by
    obtain ⟨hx, _⟩ := recommendH_spec h dfA q ing k rd
    unfold full_requestH
    rcases hrec : recommendH h dfA q ing k rd with ⟨h1, r⟩
    rw [hrec] at hx
    cases r with
    | frame a =>
      dsimp only
      unfold output_recommended_recipesH alloc
      exact extends_trans hx ⟨[readH h1 a], rfl⟩
    | noneRef => exact hx
    | raised m => exact hx
  exact ⟨hext, fun a ha => readH_of_extends hext ha⟩

/-- C8 witness: a one-frame heap holding the sample catalog is
preserved across a full request. -/
theorem catalog_unmodified_witness :
    (∃ t, (full_requestH [testCatalog] 0 targetVec [] 3 false).1 = [testCatalog] ++ t) ∧
    readH (full_requestH [testCatalog] 0 targetVec [] 3 false).1 0 = readH [testCatalog] 0 :=
  ⟨(catalog_unmodified [testCatalog] 0 targetVec [] 3 false).1,
   (catalog_unmodified [testCatalog] 0 targetVec [] 3 false).2 0 (by decide)⟩

end DietRec

namespace DietRec

/-- C3 witness: the empty term list returns the fixture unchanged; the
plain term `chicken` over the plain fixture texts keeps order and
admits the chicken row, whose ingredient text contains the term. -/
theorem filter_contract_witness :
    extract_ingredient_filtered_data testCatalog [] = testCatalog ∧
    List.Sublist (extract_ingredient_filtered_data testCatalog [chickenStr]) testCatalog ∧
    chickenSalad ∈ extract_ingredient_filtered_data testCatalog [chickenStr] :=
  ⟨(filter_contract testCatalog []).1 rfl,
   ((filter_contract testCatalog [chickenStr]).2 (by decide) (by decide)).1,
   (((filter_contract testCatalog [chickenStr]).2 (by decide) (by decide)).2
     chickenSalad).mpr ⟨by decide, by decide⟩⟩

end DietRec
